import Mathlib

/-!
Shallow embedding of the `diploma-ml-api` text-detection pipeline:
the text chunker (`src/utils/text_chunker.py`), the chunk aggregator
(`src/utils/chunk_aggregator.py`) and the detection orchestrator
(`src/services/detection_service.py`), together with theorems checking
the natural-language specification against this embedding.

Python strings are modelled as Lean `String` manipulated through the
underlying `List Char`; Python's exact float arithmetic is modelled over
`ℚ`; code that can raise is modelled in `Except`.
-/

namespace MLApi

/-- Python's `str.strip()`: remove leading and trailing whitespace. -/
def pyStrip (s : String) : String :=
  ⟨((s.data.dropWhile Char.isWhitespace).reverse.dropWhile Char.isWhitespace).reverse⟩

/-- Python's `str.split()` with no argument: split on whitespace runs,
discarding empty pieces. -/
def pyWords (s : String) : List String :=
  ((s.data.splitOnP Char.isWhitespace).map (fun l => (⟨l⟩ : String))).filter (· ≠ "")

/-- `len(text.split())` from `text_chunker.py` (`_count_words`). -/
def count_words (s : String) : Nat :=
  (pyWords s).length

/-- Python's `sep.join(parts)`. -/
def pyJoin (sep : String) : List String → String
  | [] => ""
  | p :: rest => rest.foldl (fun acc q => acc ++ sep ++ q) p

/-- Python's `str.upper()` (ASCII-faithful): uppercase every character. -/
def pyUpper (s : String) : String :=
  ⟨s.data.map Char.toUpper⟩

/-- One step of the regex `(?<=[.!?])\s+`: the accumulator holds the current
piece reversed, so its head is the previously scanned character. -/
def sentenceBoundary (prev : Option Char) (c : Char) : Bool :=
  c.isWhitespace && (prev = some '.' || prev = some '!' || prev = some '?')

/-- Scanner for `re.split(r'(?<=[.!?])\s+', s)`: whenever a whitespace run
follows `.`, `!` or `?`, the run is consumed as a separator. -/
def sentGo : List Char → List Char → List (List Char)
  | [], acc => [acc.reverse]
  | c :: rest, acc =>
    if sentenceBoundary acc.head? c then
      acc.reverse :: sentGo (rest.dropWhile Char.isWhitespace) []
    else
      sentGo rest (c :: acc)
  termination_by l _ => l.length
  decreasing_by
  · exact Nat.lt_succ_of_le (List.dropWhile_sublist _).length_le
  · exact Nat.lt_succ_self _

/-- `_SENTENCE_ENDINGS.split(s)`: split at sentence endings (`.`, `!` or `?`
followed by whitespace). -/
def splitSentences (s : String) : List String :=
  (sentGo s.data []).map (fun l => (⟨l⟩ : String))

/-- Scanner for `re.split(r'\n{2,}|\r\n{2,}', s)`.  NOTE: the second regex
branch is `\r` followed by two or more `\n` — not `(\r\n){2,}`. -/
def paraGo : List Char → List Char → List (List Char)
  | [], acc => [acc.reverse]
  | c :: rest, acc =>
    if c = '\n' ∧ rest.head? = some '\n' then
      acc.reverse :: paraGo (rest.dropWhile (· = '\n')) []
    else if c = '\r' ∧ rest.take 2 = ['\n', '\n'] then
      acc.reverse :: paraGo (rest.dropWhile (· = '\n')) []
    else
      paraGo rest (c :: acc)
  termination_by l _ => l.length
  decreasing_by
  · exact Nat.lt_succ_of_le (List.dropWhile_sublist _).length_le
  · exact Nat.lt_succ_of_le (List.dropWhile_sublist _).length_le
  · exact Nat.lt_succ_self _

/-- `re.split(r'\n{2,}|\r\n{2,}', text)` from `split_text_into_chunks`. -/
def paragraphSplit (s : String) : List String :=
  (paraGo s.data []).map (fun l => (⟨l⟩ : String))

/-- `[p.strip() for p in re.split(r'\n{2,}|\r\n{2,}', text) if p.strip()]`:
the paragraph list computed by `split_text_into_chunks`. -/
def paragraphsOf (text : String) : List String :=
  ((paragraphSplit text).map pyStrip).filter (fun p => p ≠ "")

def MAX_WORDS : Nat := 500
def MIN_WORDS : Nat := 200

/-- The sentence-packing loop of `_split_paragraph_into_chunks`:
state is (emitted chunks, current_parts, current_word_count). -/
def sentLoop : List String → List String → List String → Nat → List String
  | [], chunks, current_parts, _ =>
    chunks ++ (if current_parts = [] then [] else [pyJoin " " current_parts])
  | sentence :: rest, chunks, current_parts, current_word_count =>
    let sentence_words := count_words sentence
    if current_word_count + sentence_words > MAX_WORDS ∧ current_parts ≠ [] then
      sentLoop rest (chunks ++ [pyJoin " " current_parts]) [sentence] sentence_words
    else
      sentLoop rest chunks (current_parts ++ [sentence]) (current_word_count + sentence_words)

/-- `_split_paragraph_into_chunks(paragraph)` from `text_chunker.py`. -/
def split_paragraph_into_chunks (paragraph : String) : List String :=
  let sentences := splitSentences (pyStrip paragraph)
  (sentLoop sentences [] [] 0).filter (fun c => pyStrip c ≠ "")

/-- The paragraph-packing loop of `split_text_into_chunks`:
state is (emitted chunks, pending, pending_words). -/
def chunkLoop : List String → List String → List String → Nat → List String
  | [], chunks, pending, _ =>
    chunks ++ (if pending = [] then [] else [pyJoin "\n\n" pending])
  | paragraph :: rest, chunks, pending, pending_words =>
    let para_words := count_words paragraph
    if para_words > MAX_WORDS then
      let chunks' := chunks ++ (if pending = [] then [] else [pyJoin "\n\n" pending])
      chunkLoop rest (chunks' ++ split_paragraph_into_chunks paragraph) [] 0
    else
      let flushed := pending_words + para_words > MAX_WORDS ∧ pending ≠ []
      let chunks' := if flushed then chunks ++ [pyJoin "\n\n" pending] else chunks
      let pending' := (if flushed then [] else pending) ++ [paragraph]
      let pending_words' := (if flushed then 0 else pending_words) + para_words
      if pending_words' ≥ MIN_WORDS then
        chunkLoop rest (chunks' ++ [pyJoin "\n\n" pending']) [] 0
      else
        chunkLoop rest chunks' pending' pending_words'

/-- `split_text_into_chunks(text)` from `text_chunker.py`
(`return chunks or [text]` at the end). -/
def split_text_into_chunks (text : String) : List String :=
  let chunks := chunkLoop (paragraphsOf text) [] [] 0
  if chunks = [] then [text] else chunks

/-- `AiSpanDTO` from `detection_dto.py`: a character interval with a score. -/
structure AiSpanDTO where
  start : Int
  «end» : Int
  score : ℚ
deriving DecidableEq, Repr

/-- `DetectionResultDTO` from `detection_dto.py`. -/
structure DetectionResultDTO where
  label : String
  ai_probability : ℚ
  certainty : ℚ
  ai_spans : List AiSpanDTO := []
  model_used : String := "rubert"
deriving DecidableEq, Repr

/-- `DetectionInputDTO` from `detection_dto.py`. -/
structure DetectionInputDTO where
  text : String
deriving DecidableEq, Repr

/-- Round-half-to-even on exact rationals, modelling Python's `round`. -/
def roundHalfEven (q : ℚ) : ℤ :=
  let f := ⌊q⌋
  let r := q - f
  if r < 1 / 2 then f
  else if 1 / 2 < r then f + 1
  else if f % 2 = 0 then f else f + 1

/-- Python's `round(x, 4)` over exact rationals.  The half-even tie branch
is essentially unrealizable for binary doubles (no double sits exactly on a
4-decimal tie), so concrete results are only drawn from tie-free points,
where exact-rational and float rounding agree; general bounds use only the
half-ulp estimates `pyRound4_le` and `le_pyRound4`, which are insensitive
to the tie rule. -/
def pyRound4 (q : ℚ) : ℚ :=
  (roundHalfEven (q * 10000) : ℚ) / 10000

/-- The ways `aggregate_chunk_results` can raise: the explicit
`ValueError("No chunk results to aggregate")`, and the implicit
`ZeroDivisionError` from `wc / total_words` when `total_words == 0`. -/
inductive AggError where
  | valueError
  | zeroDivisionError
deriving DecidableEq, Repr

/-- `word_counts = [len(c.split()) for c in chunks]` from `chunk_aggregator.py`. -/
def word_counts (chunks : List String) : List Nat :=
  chunks.map count_words

/-- `total_words = sum(word_counts)` from `chunk_aggregator.py`. -/
def total_words (chunks : List String) : Nat :=
  (word_counts chunks).sum

/-- `weights = [wc / total_words for wc in word_counts]` from
`chunk_aggregator.py` (the division that raises when `total_words == 0`
is modelled by the guard in `aggregate_chunk_results`). -/
def weights (chunks : List String) : List ℚ :=
  (word_counts chunks).map (fun wc : ℕ => (wc : ℚ) / (total_words chunks : ℚ))

/-- `weighted_ai_prob = sum(r.ai_probability * w for r, w in zip(results, weights))`. -/
def weighted_ai_prob (results : List DetectionResultDTO) (chunks : List String) : ℚ :=
  ((results.zip (weights chunks)).map (fun rw => rw.1.ai_probability * rw.2)).sum

/-- `weighted_certainty = sum(r.certainty * w for r, w in zip(results, weights))`. -/
def weighted_certainty (results : List DetectionResultDTO) (chunks : List String) : ℚ :=
  ((results.zip (weights chunks)).map (fun rw => rw.1.certainty * rw.2)).sum

/-- `ai_votes = sum(1 for r in results if r.label.upper() == "AI")`. -/
def ai_votes (results : List DetectionResultDTO) : Nat :=
  results.countP (fun r => pyUpper r.label = "AI")

/-- `label = "AI" if ai_votes > len(results) / 2 else "HUMAN"` (Python `/`
is float division, modelled over `ℚ`). -/
def majority_label (results : List DetectionResultDTO) : String :=
  if (ai_votes results : ℚ) > (results.length : ℚ) / 2 then "AI" else "HUMAN"

/-- The span-remapping loop of `aggregate_chunk_results`: a fold over
`zip(chunks, results)` carrying the remapped spans and the running offset,
which advances by `len(chunk) + 2` after each chunk. -/
def remapped_ai_spans (results : List DetectionResultDTO) (chunks : List String) :
    List AiSpanDTO :=
  ((chunks.zip results).foldl
    (fun (acc : List AiSpanDTO × Int) cr =>
      (acc.1 ++ cr.2.ai_spans.map (fun s =>
        { start := s.start + acc.2, «end» := s.«end» + acc.2, score := s.score }),
       acc.2 + cr.1.length + 2))
    ([], 0)).1

/-- `aggregate_chunk_results(results, chunks)` from `chunk_aggregator.py`.
The `ZeroDivisionError` branch fires exactly when the weight list
comprehension divides by a zero `total_words` (i.e. `chunks` is non-empty
and its total word count is `0`). -/
def aggregate_chunk_results (results : List DetectionResultDTO) (chunks : List String) :
    Except AggError DetectionResultDTO :=
  match results with
  | [] => .error .valueError
  | [r] => .ok r
  | r0 :: _ :: _ =>
    if chunks ≠ [] ∧ total_words chunks = 0 then .error .zeroDivisionError
    else
      .ok { label := majority_label results
            ai_probability := pyRound4 (weighted_ai_prob results chunks)
            certainty := pyRound4 (weighted_certainty results chunks)
            ai_spans := remapped_ai_spans results chunks
            model_used := r0.model_used }

/-- Observable backend calls made by the orchestrator (`DetectionService`). -/
inductive BackendEvent where
  | rubertLoad
  | gigacheckLoad
  | rubertDetect (text : String)
  | gigacheckDetect (text : String)
deriving DecidableEq, Repr

namespace DetectionService

/-- `DetectionService.load` from `detection_service.py`: RuBERT (guaranteed)
is loaded first and its failure propagates; a GigaCheck (preferred) load
failure is caught and the backend marked unusable.  Backends are modelled by
their load outcomes; the returned `Bool` is the resulting usable flag
(`self._gigacheck._model is not None`), paired with the trace of calls. -/
def load (rubert_load gigacheck_load : Except String Unit) :
    List BackendEvent × Except String Bool :=
  match rubert_load with
  | .error e => ([.rubertLoad], .error e)
  | .ok _ =>
    match gigacheck_load with
    | .ok _ => ([.rubertLoad, .gigacheckLoad], .ok true)
    | .error _ => ([.rubertLoad, .gigacheckLoad], .ok false)

/-- `DetectionService.detect` from `detection_service.py`: if the GigaCheck
model is loaded, try it and on any exception fall back to RuBERT; otherwise
call RuBERT directly.  RuBERT's outcome (success or exception) is returned
as-is.  Backends are modelled as functions from the input to an outcome;
the trace of backend calls is returned alongside. -/
def detect (gigacheck_usable : Bool)
    (gigacheck_detect rubert_detect : DetectionInputDTO → Except String DetectionResultDTO)
    (dto : DetectionInputDTO) :
    List BackendEvent × Except String DetectionResultDTO :=
  if gigacheck_usable then
    match gigacheck_detect dto with
    | .ok r => ([.gigacheckDetect dto.text], .ok r)
    | .error _ => ([.gigacheckDetect dto.text, .rubertDetect dto.text], rubert_detect dto)
  else
    ([.rubertDetect dto.text], rubert_detect dto)

end DetectionService

/-- The full Chunker → backend.detect-per-chunk → Aggregator pipeline as the
spec describes it for `detect` (stated for a backend that itself does not
fail, so that any difference from the orchestrator is visible).  This is a
spec-side definition, for comparison with `DetectionService.detect`. -/
def specPipelineDetect (backend : String → DetectionResultDTO) (text : String) :
    Except AggError DetectionResultDTO :=
  let chunks := split_text_into_chunks text
  aggregate_chunk_results (chunks.map backend) chunks

/-- Spec-side span remapping: process chunks in original order with a running
character offset, add the offset to every span's `start` and `end`, and
advance the offset by `len(chunk) + 2` after each chunk. -/
def specRemapSpans (offset : Int) : List (String × DetectionResultDTO) → List AiSpanDTO
  | [] => []
  | (chunk, result) :: rest =>
    result.ai_spans.map (fun s =>
      { start := s.start + offset, «end» := s.«end» + offset, score := s.score })
      ++ specRemapSpans (offset + chunk.length + 2) rest

/-- Spec-side image of the sentence-packing loop that records the blocks of
consecutive sentences instead of their joined text. -/
def greedyBlocksLoop : List String → List (List String) → List String → Nat → List (List String)
  | [], blocks, current_parts, _ =>
    blocks ++ (if current_parts = [] then [] else [current_parts])
  | sentence :: rest, blocks, current_parts, current_word_count =>
    let sentence_words := count_words sentence
    if current_word_count + sentence_words > MAX_WORDS ∧ current_parts ≠ [] then
      greedyBlocksLoop rest (blocks ++ [current_parts]) [sentence] sentence_words
    else
      greedyBlocksLoop rest blocks (current_parts ++ [sentence]) (current_word_count + sentence_words)

/-- A deterministic backend whose answer depends on the exact text it is
given: its reported probability is the character length of its input. -/
def lengthBackend : String → DetectionResultDTO := fun t =>
  { label := "HUMAN", ai_probability := (t.length : ℚ), certainty := 0, model_used := "gigacheck" }

def resultAI : DetectionResultDTO :=
  { label := "AI", ai_probability := 50, certainty := 50 }

def resultHuman : DetectionResultDTO :=
  { label := "HUMAN", ai_probability := 10, certainty := 40 }

def resultLowerAi : DetectionResultDTO :=
  { label := "ai", ai_probability := 0, certainty := 0 }

def resultMixed : DetectionResultDTO :=
  { label := "Mixed", ai_probability := 50, certainty := 50 }

def resultSpan1 : DetectionResultDTO :=
  { label := "AI", ai_probability := 50, certainty := 50,
    ai_spans := [{ start := 0, «end» := 2, score := 1 }], model_used := "gigacheck" }

def resultSpan2 : DetectionResultDTO :=
  { label := "AI", ai_probability := 50, certainty := 50,
    ai_spans := [{ start := 1, «end» := 3, score := 1 }], model_used := "gigacheck" }

def resultRoundsUp : DetectionResultDTO :=
  { label := "HUMAN", ai_probability := 12346 / 100000, certainty := 0 }

/-! ### Helper lemmas -/

theorem votes_gt_half_iff (v n : ℕ) : ((v : ℚ) > (n : ℚ) / 2) ↔ 2 * v > n := by
  rw [gt_iff_lt, div_lt_iff₀ (by norm_num : (0 : ℚ) < 2)]
  constructor
  · intro h
    have : (n : ℚ) < (2 * v : ℕ) := by push_cast; linarith
    exact_mod_cast this
  · intro h
    have : (n : ℚ) < (2 * v : ℕ) := by exact_mod_cast h
    push_cast at this
    linarith

theorem majority_label_iff (results : List DetectionResultDTO) :
    majority_label results = "AI" ↔ 2 * ai_votes results > results.length := by
  rw [majority_label]
  by_cases h : (ai_votes results : ℚ) > (results.length : ℚ) / 2
  · simp only [if_pos h, true_iff]
    exact (votes_gt_half_iff _ _).mp h
  · simp only [if_neg h]
    constructor
    · intro heq; exact absurd heq (by decide)
    · intro hv; exact absurd ((votes_gt_half_iff _ _).mpr hv) h

theorem aggregate_eq_ok (r0 r1 : DetectionResultDTO) (rest : List DetectionResultDTO)
    (chunks : List String) (h : chunks = [] ∨ total_words chunks ≠ 0) :
    aggregate_chunk_results (r0 :: r1 :: rest) chunks =
      .ok { label := majority_label (r0 :: r1 :: rest)
            ai_probability := pyRound4 (weighted_ai_prob (r0 :: r1 :: rest) chunks)
            certainty := pyRound4 (weighted_certainty (r0 :: r1 :: rest) chunks)
            ai_spans := remapped_ai_spans (r0 :: r1 :: rest) chunks
            model_used := r0.model_used } := by
  have hg : ¬(chunks ≠ [] ∧ total_words chunks = 0) := by
    rcases h with h | h
    · exact fun hc => hc.1 h
    · exact fun hc => h hc.2
  simp only [aggregate_chunk_results, if_neg hg]

/-! ### C7: orchestrator load order and load-failure handling -/

/-- C7: `DetectionService.load` always loads the guaranteed (RuBERT) backend
first; a RuBERT load failure is not caught (it propagates and GigaCheck is
never attempted), while a GigaCheck load failure is caught and merely leaves
the preferred backend unusable, `load` succeeding on the fallback alone. -/
theorem C7_load_order_and_failure (rubert_load gigacheck_load : Except String Unit) :
    ((DetectionService.load rubert_load gigacheck_load).1.head? = some .rubertLoad)
    ∧ (∀ e, rubert_load = .error e →
        DetectionService.load rubert_load gigacheck_load = ([.rubertLoad], .error e))
    ∧ (∀ e, rubert_load = .ok () → gigacheck_load = .error e →
        DetectionService.load rubert_load gigacheck_load
          = ([.rubertLoad, .gigacheckLoad], .ok false))
    ∧ (rubert_load = .ok () → gigacheck_load = .ok () →
        DetectionService.load rubert_load gigacheck_load
          = ([.rubertLoad, .gigacheckLoad], .ok true)) := by
  cases rubert_load <;> cases gigacheck_load <;>
    simp [DetectionService.load]

/-- Witness for C7 at a concrete input: GigaCheck's load raises while
RuBERT's succeeds, and `load` completes with the preferred backend unusable. -/
theorem C7_load_order_and_failure_witness :
    DetectionService.load (.ok ()) (.error "gigacheck down")
      = ([.rubertLoad, .gigacheckLoad], .ok false) :=
  (C7_load_order_and_failure (.ok ()) (.error "gigacheck down")).2.2.1
    "gigacheck down" rfl rfl

/-! ### C1: orchestrator detect — no chunk pipeline, but fallback holds -/

/-- C1 counterexample: `DetectionService.detect` does not run the
Chunker → backend-per-chunk → Aggregator pipeline.  With a backend whose
answer depends on the exact text it receives, the orchestrator's result on
the input `" hi "` differs from the pipeline's result, because `detect`
hands the backend the raw text while the pipeline would hand it the chunk
`"hi"`. -/
theorem C1_counterexample :
    ∃ r1 r2 : DetectionResultDTO,
      (DetectionService.detect true (fun dto => .ok (lengthBackend dto.text))
          (fun _ => .error "unused") ⟨" hi "⟩).2 = .ok r1
      ∧ specPipelineDetect lengthBackend " hi " = .ok r2
      ∧ r1 ≠ r2 := by
  refine ⟨lengthBackend " hi ", lengthBackend "hi", rfl, ?_, ?_⟩
  · simp +decide [specPipelineDetect, split_text_into_chunks, chunkLoop, paragraphsOf,
      paragraphSplit, paraGo, pyStrip, pyJoin, count_words, pyWords, MIN_WORDS, MAX_WORDS,
      aggregate_chunk_results]
  · intro h
    have := congrArg DetectionResultDTO.ai_probability h
    simp only [lengthBackend] at this
    norm_num [String.length] at this

/-- C1 amended: `detect` passes the input text directly to the preferred
(GigaCheck) backend when it is usable and returns its result; on any
exception it logs and calls the guaranteed (RuBERT) backend on the same
text, returning RuBERT's outcome as-is — so a RuBERT failure propagates
uncaught; when the preferred backend is unusable, RuBERT is called
directly. -/
theorem C1_detect_fallback
    (giga rubert : DetectionInputDTO → Except String DetectionResultDTO)
    (dto : DetectionInputDTO) :
    (∀ r, giga dto = .ok r →
      DetectionService.detect true giga rubert dto = ([.gigacheckDetect dto.text], .ok r))
    ∧ (∀ e, giga dto = .error e →
      DetectionService.detect true giga rubert dto
        = ([.gigacheckDetect dto.text, .rubertDetect dto.text], rubert dto))
    ∧ DetectionService.detect false giga rubert dto = ([.rubertDetect dto.text], rubert dto) := by
  refine ⟨fun r hr => ?_, fun e he => ?_, ?_⟩
  · simp [DetectionService.detect, hr]
  · simp [DetectionService.detect, he]
  · simp [DetectionService.detect]

/-- Witness for C1 (amended) at a concrete input: the preferred backend
raises, and the orchestrator returns the guaranteed backend's result. -/
theorem C1_detect_fallback_witness :
    DetectionService.detect true (fun _ => .error "gigacheck failed")
        (fun _ => .ok resultHuman) ⟨"text"⟩
      = ([.gigacheckDetect "text", .rubertDetect "text"], .ok resultHuman) :=
  (C1_detect_fallback (fun _ => .error "gigacheck failed")
    (fun _ => .ok resultHuman) ⟨"text"⟩).2.1 "gigacheck failed" rfl

/-! ### C3: zero total word count divides by zero -/

/-- C3: contrary to the claim that a zero total word count is guarded
(all weights defined as `0` and a result returned), `aggregate_chunk_results`
on two results whose chunks are both empty strings raises
`ZeroDivisionError` from the weight computation `wc / total_words`. -/
theorem C3_zero_division_eval :
    aggregate_chunk_results [resultAI, resultHuman] ["", ""] = .error .zeroDivisionError := by
  simp +decide [aggregate_chunk_results, total_words, word_counts, count_words, pyWords]

/-! ### C8: Windows-style blank lines are not paragraph breaks -/

/-- C8: the paragraph regex `\n{2,}|\r\n{2,}` does not treat `"\r\n\r\n"`
as a blank-line boundary (the second alternative means `\r` followed by two
or more `\n`), so `"A\r\n\r\nB"` stays a single paragraph while `"A\n\nB"`
splits into two — contradicting the claim that the two separators behave
identically. -/
theorem C8_crlf_not_split :
    paragraphsOf "A\r\n\r\nB" = ["A\r\n\r\nB"]
    ∧ paragraphsOf "A\n\nB" = ["A", "B"]
    ∧ split_text_into_chunks "A\r\n\r\nB" = ["A\r\n\r\nB"] := by
  refine ⟨?_, ?_, ?_⟩
  · simp +decide [paragraphsOf, paragraphSplit, paraGo, pyStrip]
  · simp +decide [paragraphsOf, paragraphSplit, paraGo, pyStrip]
  · simp +decide [split_text_into_chunks, chunkLoop, paragraphsOf, paragraphSplit, paraGo,
      pyStrip, pyJoin, count_words, pyWords, MIN_WORDS, MAX_WORDS]

/-! ### C6: majority label -/

/-- C6 counterexample: the aggregate label is not characterised by the
number of results whose label is exactly the string `"AI"`.  Two results
labelled `"ai"` aggregate to label `"AI"` even though zero results have
label `"AI"` (zero is not strictly more than half of two). -/
theorem C6_counterexample :
    ∃ res, aggregate_chunk_results [resultLowerAi, resultLowerAi] ["a", "b"] = .ok res
      ∧ res.label = "AI"
      ∧ ¬(2 * List.countP (fun r => r.label = "AI") [resultLowerAi, resultLowerAi]
            > ([resultLowerAi, resultLowerAi] : List DetectionResultDTO).length) := by
  refine ⟨_, aggregate_eq_ok resultLowerAi resultLowerAi [] ["a", "b"] (Or.inr (by decide)), ?_, ?_⟩
  · exact (majority_label_iff _).mpr (by decide)
  · decide

/-- C6 amended: for at least two chunk results (on chunks that do not make
the aggregator raise), the aggregate label is `"AI"` iff strictly more than
half of the per-chunk results have a label that uppercases to `"AI"` (the
vote is case-insensitive); an exact tie resolves to `"HUMAN"`. -/
theorem C6_majority_label (results : List DetectionResultDTO) (chunks : List String)
    (h2 : 2 ≤ results.length) (hg : chunks = [] ∨ total_words chunks ≠ 0) :
    ∃ res, aggregate_chunk_results results chunks = .ok res
      ∧ (res.label = "AI" ↔
          2 * results.countP (fun r => pyUpper r.label = "AI") > results.length) := by
  match results with
  | [] => simp at h2
  | [r] => simp at h2
  | r0 :: r1 :: rest =>
    refine ⟨_, aggregate_eq_ok r0 r1 rest chunks hg, ?_⟩
    exact majority_label_iff (r0 :: r1 :: rest)

/-- Witness for C6 (amended): labels `["AI", "AI", "HUMAN"]` aggregate to
`"AI"`, and the even tie `["AI", "HUMAN"]` aggregates to `"HUMAN"`. -/
theorem C6_majority_label_witness :
    (∃ res, aggregate_chunk_results [resultAI, resultAI, resultHuman] ["a", "b", "c"] = .ok res
      ∧ res.label = "AI")
    ∧ (∃ res, aggregate_chunk_results [resultAI, resultHuman] ["a", "b"] = .ok res
      ∧ res.label ≠ "AI") := by
  constructor
  · obtain ⟨res, h1, h2⟩ :=
      C6_majority_label [resultAI, resultAI, resultHuman] ["a", "b", "c"]
        (by decide) (Or.inr (by decide))
    exact ⟨res, h1, h2.mpr (by decide)⟩
  · obtain ⟨res, h1, h2⟩ :=
      C6_majority_label [resultAI, resultHuman] ["a", "b"]
        (by decide) (Or.inr (by decide))
    exact ⟨res, h1, fun hl => absurd (h2.mp hl) (by decide)⟩

/-! ### C10: label normalization -/

/-- C10: with at least two results (and chunks that do not make the
aggregator raise) the aggregate label is exactly `"AI"` or `"HUMAN"`,
a result votes for `"AI"` iff its label uppercases to `"AI"` (so `"Mixed"`
counts toward `"HUMAN"`), while the single-result path returns the input
result — its label included — unchanged. -/
theorem C10_label_normalization (results : List DetectionResultDTO) (chunks : List String)
    (h2 : 2 ≤ results.length) (hg : chunks = [] ∨ total_words chunks ≠ 0) :
    (∃ res, aggregate_chunk_results results chunks = .ok res
      ∧ (res.label = "AI" ∨ res.label = "HUMAN")
      ∧ (res.label = "AI" ↔
          2 * results.countP (fun r => pyUpper r.label = "AI") > results.length))
    ∧ ∀ (r : DetectionResultDTO) (cs : List String),
        aggregate_chunk_results [r] cs = .ok r := by
  refine ⟨?_, fun r cs => rfl⟩
  match results with
  | [] => simp at h2
  | [r] => simp at h2
  | r0 :: r1 :: rest =>
    refine ⟨_, aggregate_eq_ok r0 r1 rest chunks hg, ?_, majority_label_iff _⟩
    by_cases h : (ai_votes (r0 :: r1 :: rest) : ℚ) > ((r0 :: r1 :: rest).length : ℚ) / 2
    · exact Or.inl (by rw [majority_label, if_pos h])
    · exact Or.inr (by rw [majority_label, if_neg h])

/-- Witness for C10: two results labelled `"Mixed"` aggregate to the label
`"HUMAN"` (the `"Mixed"` votes count toward `"HUMAN"`), and a single
`"Mixed"` result passes through unchanged. -/
theorem C10_label_normalization_witness :
    (∃ res, aggregate_chunk_results [resultMixed, resultMixed] ["a", "b"] = .ok res
      ∧ res.label = "HUMAN")
    ∧ aggregate_chunk_results [resultMixed] [] = .ok resultMixed := by
  obtain ⟨⟨res, h1, hor, hiff⟩, hsingle⟩ :=
    C10_label_normalization [resultMixed, resultMixed] ["a", "b"]
      (by decide) (Or.inr (by decide))
  refine ⟨⟨res, h1, ?_⟩, hsingle resultMixed []⟩
  rcases hor with h | h
  · exact absurd (hiff.mp h) (by decide)
  · exact h

/-! ### C2: span offset remapping -/

theorem remap_foldl (l : List (String × DetectionResultDTO)) (acc : List AiSpanDTO)
    (off : Int) :
    (l.foldl
      (fun (acc : List AiSpanDTO × Int) cr =>
        (acc.1 ++ cr.2.ai_spans.map (fun s =>
          { start := s.start + acc.2, «end» := s.«end» + acc.2, score := s.score }),
         acc.2 + cr.1.length + 2))
      (acc, off)).1 = acc ++ specRemapSpans off l := by
  induction l generalizing acc off with
  | nil => simp [specRemapSpans]
  | cons cr rest ih =>
    cases cr with
    | mk chunk result =>
      simp only [List.foldl_cons, specRemapSpans, ih, List.append_assoc]

theorem remapped_ai_spans_eq_spec (results : List DetectionResultDTO)
    (chunks : List String) :
    remapped_ai_spans results chunks = specRemapSpans 0 (chunks.zip results) := by
  rw [remapped_ai_spans, remap_foldl]
  rfl

/-- C2: for equal-length result/chunk lists of length at least two (whose
total word count does not make the aggregator raise), the output's spans
are obtained by processing chunks in original order with a running offset
starting at `0`, adding the offset to each span's `start` and `end`, and
advancing it by `len(chunk) + 2` after each chunk (`specRemapSpans`). -/
theorem C2_span_remap (results : List DetectionResultDTO) (chunks : List String)
    (h2 : 2 ≤ results.length) (hlen : chunks.length = results.length)
    (hT : total_words chunks ≠ 0) :
    ∃ res, aggregate_chunk_results results chunks = .ok res
      ∧ res.ai_spans = specRemapSpans 0 (chunks.zip results) := by
  match results with
  | [] => simp at h2
  | [r] => simp at h2
  | r0 :: r1 :: rest =>
    exact ⟨_, aggregate_eq_ok r0 r1 rest chunks (Or.inr hT),
      remapped_ai_spans_eq_spec _ _⟩

/-- Witness for C2, the spec's concrete example: chunks `["AAAA", "BBBB"]`
with chunk-local spans `(0, 2)` and `(1, 3)` produce document-level spans
`(0, 2)` and `(7, 9)` (offset for the second chunk is `4 + 2 = 6`). -/
theorem C2_span_remap_witness :
    ∃ res, aggregate_chunk_results [resultSpan1, resultSpan2] ["AAAA", "BBBB"] = .ok res
      ∧ res.ai_spans = [{ start := 0, «end» := 2, score := 1 },
                        { start := 7, «end» := 9, score := 1 }] := by
  obtain ⟨res, h1, h2⟩ :=
    C2_span_remap [resultSpan1, resultSpan2] ["AAAA", "BBBB"]
      (by decide) (by decide) (by decide)
  refine ⟨res, h1, h2.trans ?_⟩
  simp +decide [specRemapSpans, resultSpan1, resultSpan2]

/-! ### C9: weighted-average boundedness and rounding -/

theorem weights_length (chunks : List String) : (weights chunks).length = chunks.length := by
  rw [weights, List.length_map, word_counts, List.length_map]

theorem weights_nonneg (chunks : List String) : ∀ w ∈ weights chunks, 0 ≤ w := by
  intro w hw
  simp only [weights, List.mem_map] at hw
  obtain ⟨wc, _, rfl⟩ := hw
  exact div_nonneg (Nat.cast_nonneg wc) (Nat.cast_nonneg (total_words chunks))

theorem sum_map_cast_div (l : List ℕ) (d : ℚ) :
    (l.map (fun x : ℕ => (x : ℚ) / d)).sum = (l.map (fun x : ℕ => (x : ℚ))).sum / d := by
  induction l with
  | nil => simp
  | cons x l ih =>
    rw [List.map_cons, List.map_cons, List.sum_cons, List.sum_cons, ih, add_div]

theorem weights_sum (chunks : List String) (h : total_words chunks ≠ 0) :
    (weights chunks).sum = 1 := by
  rw [weights, sum_map_cast_div]
  have hc : ∀ l : List ℕ, (l.map (fun x : ℕ => (x : ℚ))).sum = (l.sum : ℚ) := by
    intro l
    induction l with
    | nil => simp
    | cons x l ih =>
      rw [List.map_cons, List.sum_cons, ih, List.sum_cons, Nat.cast_add]
  rw [hc, total_words, div_self (by exact_mod_cast h)]

theorem weighted_zip_le (f : DetectionResultDTO → ℚ) (rs : List DetectionResultDTO)
    (ws : List ℚ) (hi : ℚ) (hw : ∀ w ∈ ws, 0 ≤ w) (hf : ∀ r ∈ rs, f r ≤ hi)
    (hlen : rs.length = ws.length) :
    ((rs.zip ws).map (fun rw => f rw.1 * rw.2)).sum ≤ hi * ws.sum := by
  induction rs generalizing ws with
  | nil =>
    cases ws with
    | nil => simp
    | cons w ws' => simp at hlen
  | cons r rs' ih =>
    cases ws with
    | nil => simp at hlen
    | cons w ws' =>
      simp only [List.zip_cons_cons, List.map_cons, List.sum_cons, List.length_cons] at *
      have h1 : f r * w ≤ hi * w :=
        mul_le_mul_of_nonneg_right (hf r (List.mem_cons_self _ _))
          (hw w (List.mem_cons_self _ _))
      have h2 := ih ws' (fun w hw' => hw w (List.mem_cons_of_mem _ hw'))
        (fun r hr => hf r (List.mem_cons_of_mem _ hr)) (by omega)
      rw [mul_add]
      exact add_le_add h1 h2

theorem le_weighted_zip (f : DetectionResultDTO → ℚ) (rs : List DetectionResultDTO)
    (ws : List ℚ) (lo : ℚ) (hw : ∀ w ∈ ws, 0 ≤ w) (hf : ∀ r ∈ rs, lo ≤ f r)
    (hlen : rs.length = ws.length) :
    lo * ws.sum ≤ ((rs.zip ws).map (fun rw => f rw.1 * rw.2)).sum := by
  induction rs generalizing ws with
  | nil =>
    cases ws with
    | nil => simp
    | cons w ws' => simp at hlen
  | cons r rs' ih =>
    cases ws with
    | nil => simp at hlen
    | cons w ws' =>
      simp only [List.zip_cons_cons, List.map_cons, List.sum_cons, List.length_cons] at *
      have h1 : lo * w ≤ f r * w :=
        mul_le_mul_of_nonneg_right (hf r (List.mem_cons_self _ _))
          (hw w (List.mem_cons_self _ _))
      have h2 := ih ws' (fun w hw' => hw w (List.mem_cons_of_mem _ hw'))
        (fun r hr => hf r (List.mem_cons_of_mem _ hr)) (by omega)
      rw [mul_add]
      exact add_le_add h1 h2

theorem roundHalfEven_le (q : ℚ) : (roundHalfEven q : ℚ) ≤ q + 1 / 2 := by
  have hf1 : (⌊q⌋ : ℚ) ≤ q := Int.floor_le q
  have hf2 : q < ⌊q⌋ + 1 := Int.lt_floor_add_one q
  rw [roundHalfEven]
  split_ifs with h1 h2 h3 <;> push_cast <;> linarith

theorem le_roundHalfEven (q : ℚ) : q - 1 / 2 ≤ (roundHalfEven q : ℚ) := by
  have hf1 : (⌊q⌋ : ℚ) ≤ q := Int.floor_le q
  have hf2 : q < ⌊q⌋ + 1 := Int.lt_floor_add_one q
  rw [roundHalfEven]
  split_ifs with h1 h2 h3 <;> push_cast <;> linarith

theorem pyRound4_le (q : ℚ) : pyRound4 q ≤ q + 1 / 20000 := by
  rw [pyRound4, div_le_iff₀ (by norm_num : (0 : ℚ) < 10000)]
  have := roundHalfEven_le (q * 10000)
  linarith

theorem le_pyRound4 (q : ℚ) : q - 1 / 20000 ≤ pyRound4 q := by
  rw [pyRound4, le_div_iff₀ (by norm_num : (0 : ℚ) < 10000)]
  have := le_roundHalfEven (q * 10000)
  linarith

/-- C9 amended: with at least two results, equal-length chunks of non-zero
total word count, and `lo`/`hi` bounding every per-chunk `ai_probability`,
the pre-rounding weighted average lies between `lo` and `hi`; the returned
`ai_probability` is that average rounded to 4 decimal places and therefore
lies within `1/20000` (half of the last decimal place) of the `[lo, hi]`
interval — but, as the counterexample shows, not necessarily inside it. -/
theorem C9_weighted_average_bounds (results : List DetectionResultDTO)
    (chunks : List String) (lo hi : ℚ) (h2 : 2 ≤ results.length)
    (hlen : chunks.length = results.length) (hT : total_words chunks ≠ 0)
    (hlo : ∀ r ∈ results, lo ≤ r.ai_probability)
    (hhi : ∀ r ∈ results, r.ai_probability ≤ hi) :
    ∃ res, aggregate_chunk_results results chunks = .ok res
      ∧ lo ≤ weighted_ai_prob results chunks
      ∧ weighted_ai_prob results chunks ≤ hi
      ∧ res.ai_probability = pyRound4 (weighted_ai_prob results chunks)
      ∧ lo - 1 / 20000 ≤ res.ai_probability
      ∧ res.ai_probability ≤ hi + 1 / 20000 := by
  have hwlen : results.length = (weights chunks).length := by
    rw [weights_length, hlen]
  have hupper : weighted_ai_prob results chunks ≤ hi := by
    rw [weighted_ai_prob]
    calc ((results.zip (weights chunks)).map (fun rw => rw.1.ai_probability * rw.2)).sum
        ≤ hi * (weights chunks).sum :=
          weighted_zip_le (fun r => r.ai_probability) results (weights chunks) hi
            (weights_nonneg chunks) hhi hwlen
      _ = hi := by rw [weights_sum chunks hT, mul_one]
  have hlower : lo ≤ weighted_ai_prob results chunks := by
    rw [weighted_ai_prob]
    calc lo = lo * (weights chunks).sum := by rw [weights_sum chunks hT, mul_one]
      _ ≤ _ :=
          le_weighted_zip (fun r => r.ai_probability) results (weights chunks) lo
            (weights_nonneg chunks) hlo hwlen
  match results with
  | [] => simp at h2
  | [r] => simp at h2
  | r0 :: r1 :: rest =>
    refine ⟨_, aggregate_eq_ok r0 r1 rest chunks (Or.inr hT), hlower, hupper, rfl, ?_, ?_⟩
    · have := le_pyRound4 (weighted_ai_prob (r0 :: r1 :: rest) chunks)
      simp only
      linarith
    · have := pyRound4_le (weighted_ai_prob (r0 :: r1 :: rest) chunks)
      simp only
      linarith

/-- Witness for C9 (amended) at a concrete input: probabilities 50 and 10
with single-word chunks stay within the bounds 10 and 50 (widened by the
rounding half-ulp). -/
theorem C9_weighted_average_bounds_witness :
    ∃ res, aggregate_chunk_results [resultAI, resultHuman] ["a", "b"] = .ok res
      ∧ 10 ≤ weighted_ai_prob [resultAI, resultHuman] ["a", "b"]
      ∧ weighted_ai_prob [resultAI, resultHuman] ["a", "b"] ≤ 50
      ∧ res.ai_probability = pyRound4 (weighted_ai_prob [resultAI, resultHuman] ["a", "b"])
      ∧ 10 - 1 / 20000 ≤ res.ai_probability
      ∧ res.ai_probability ≤ 50 + 1 / 20000 :=
  C9_weighted_average_bounds [resultAI, resultHuman] ["a", "b"] 10 50
    (by decide) (by decide) (by decide)
    (by intro r hr; fin_cases hr <;> norm_num [resultAI, resultHuman])
    (by intro r hr; fin_cases hr <;> norm_num [resultAI, resultHuman])

/-- C9 counterexample: two chunks of one word each, both with
`ai_probability = 0.12346`, have weighted average `0.12346` (the halving
and re-adding of equal doubles is exact, so the float program computes the
same average), but rounding to 4 decimal places gives `0.1235`, strictly
above the maximum per-chunk value — so the output does not lie between the
per-chunk minimum and maximum after rounding.  `0.12346 * 10000` has
fractional part `3/5`, away from the rounding tie, so exact-rational and
float rounding agree here. -/
theorem C9_counterexample :
    ∃ res, aggregate_chunk_results [resultRoundsUp, resultRoundsUp] ["a", "a"] = .ok res
      ∧ (∀ r ∈ [resultRoundsUp, resultRoundsUp],
          r.ai_probability = 12346 / 100000)
      ∧ res.ai_probability > 12346 / 100000 := by
  refine ⟨_, aggregate_eq_ok resultRoundsUp resultRoundsUp [] ["a", "a"] (Or.inr (by decide)),
    ?_, ?_⟩
  · intro r hr
    fin_cases hr <;> rfl
  · have hcw : count_words "a" = 1 := by decide
    have hw : weighted_ai_prob [resultRoundsUp, resultRoundsUp] ["a", "a"] = 12346 / 100000 := by
      simp [weighted_ai_prob, weights, word_counts, total_words, hcw, resultRoundsUp]
      norm_num
    have hfl : ⌊(6173 / 5 : ℚ)⌋ = 1234 := by
      rw [Int.floor_eq_iff]
      norm_num
    simp only [hw]
    rw [pyRound4, roundHalfEven]
    have h10 : (12346 / 100000 : ℚ) * 10000 = 6173 / 5 := by norm_num
    rw [h10, hfl]
    norm_num

/-! ### C4: the chunker returns a non-empty list of non-empty chunks -/

theorem foldl_join_length (sep : String) (l : List String) (acc : String) :
    acc.length ≤ (l.foldl (fun a q => a ++ sep ++ q) acc).length := by
  induction l generalizing acc with
  | nil => exact le_refl _
  | cons q l ih =>
    rw [List.foldl_cons]
    refine le_trans ?_ (ih (acc ++ sep ++ q))
    rw [String.length_append, String.length_append]
    omega

theorem length_pos_of_ne_empty {s : String} (h : s ≠ "") : 0 < s.length := by
  cases s with
  | mk data =>
    cases data with
    | nil => exact absurd rfl h
    | cons c cs => simp [String.length]

theorem pyJoin_ne_empty (sep p : String) (rest : List String) (hp : p ≠ "") :
    pyJoin sep (p :: rest) ≠ "" := by
  intro h
  have h1 : 0 < p.length := length_pos_of_ne_empty hp
  have h2 := foldl_join_length sep rest p
  rw [pyJoin] at h
  rw [h] at h2
  have h0 : String.length "" = 0 := rfl
  rw [h0] at h2
  omega

theorem split_paragraph_elems_ne_empty (p : String) :
    ∀ c ∈ split_paragraph_into_chunks p, c ≠ "" := by
  intro c hc hce
  simp only [split_paragraph_into_chunks] at hc
  have h2 := (List.mem_filter.mp hc).2
  rw [hce] at h2
  exact absurd h2 (by decide)

theorem paragraphsOf_elems_ne_empty (text : String) :
    ∀ p ∈ paragraphsOf text, p ≠ "" := by
  intro p hp
  exact of_decide_eq_true (List.mem_filter.mp hp).2

theorem elems_append {l1 l2 : List String} (h1 : ∀ c ∈ l1, c ≠ "") (h2 : ∀ c ∈ l2, c ≠ "") :
    ∀ c ∈ l1 ++ l2, c ≠ "" := by
  intro c hc
  rcases List.mem_append.mp hc with h | h
  · exact h1 c h
  · exact h2 c h

theorem elems_join_singleton {pending : List String} (hpend : pending ≠ [])
    (hp : ∀ p ∈ pending, p ≠ "") : ∀ c ∈ [pyJoin "\n\n" pending], c ≠ "" := by
  intro c hcm
  have hce := List.mem_singleton.mp hcm
  subst hce
  cases pending with
  | nil => exact absurd rfl hpend
  | cons q qs => exact pyJoin_ne_empty _ q qs (hp q (List.mem_cons_self q qs))

theorem elems_flush {chunks pending : List String} (hc : ∀ c ∈ chunks, c ≠ "")
    (hp : ∀ p ∈ pending, p ≠ "") :
    ∀ c ∈ chunks ++ (if pending = [] then [] else [pyJoin "\n\n" pending]), c ≠ "" := by
  refine elems_append hc ?_
  intro c hcm
  cases hpend : pending with
  | nil => rw [hpend, if_pos rfl] at hcm; cases hcm
  | cons q qs =>
    rw [hpend, if_neg (by simp)] at hcm
    exact elems_join_singleton (by simp) (hpend ▸ hp) c hcm

theorem chunkLoop_elems_ne_empty (paragraphs : List String) :
    ∀ (chunks pending : List String) (pw : Nat),
    (∀ c ∈ chunks, c ≠ "") → (∀ p ∈ pending, p ≠ "") → (∀ p ∈ paragraphs, p ≠ "") →
    ∀ c ∈ chunkLoop paragraphs chunks pending pw, c ≠ "" := by
  induction paragraphs with
  | nil =>
    intro chunks pending pw hc hp _ c hmem
    rw [chunkLoop] at hmem
    exact elems_flush hc hp c hmem
  | cons paragraph rest ih =>
    intro chunks pending pw hc hp hpar c hmem
    have hparhd : paragraph ≠ "" := hpar paragraph (List.mem_cons_self _ _)
    have hpartl : ∀ p ∈ rest, p ≠ "" := fun p h => hpar p (List.mem_cons_of_mem _ h)
    simp only [chunkLoop] at hmem
    by_cases h1 : count_words paragraph > MAX_WORDS
    · rw [if_pos h1] at hmem
      refine ih _ _ _ ?_ (by simp) hpartl c hmem
      exact elems_append (elems_flush hc hp) (split_paragraph_elems_ne_empty paragraph)
    · rw [if_neg h1] at hmem
      by_cases h2 : pw + count_words paragraph > MAX_WORDS ∧ pending ≠ []
      · simp only [if_pos h2] at hmem
        have hc' : ∀ c ∈ chunks ++ [pyJoin "\n\n" pending], c ≠ "" :=
          elems_append hc (elems_join_singleton h2.2 hp)
        have hp' : ∀ p ∈ ([paragraph] : List String), p ≠ "" := by
          intro p hpm
          rw [List.mem_singleton.mp hpm]
          exact hparhd
        by_cases h3 : 0 + count_words paragraph ≥ MIN_WORDS
        · rw [if_pos h3] at hmem
          refine ih _ _ _ ?_ (by simp) hpartl c hmem
          exact elems_append hc' (elems_join_singleton (by simp) hp')
        · rw [if_neg h3] at hmem
          exact ih _ _ _ hc' hp' hpartl c hmem
      · simp only [if_neg h2] at hmem
        have hp' : ∀ p ∈ pending ++ [paragraph], p ≠ "" := by
          refine elems_append hp ?_
          intro p hpm
          rw [List.mem_singleton.mp hpm]
          exact hparhd
        by_cases h3 : pw + count_words paragraph ≥ MIN_WORDS
        · rw [if_pos h3] at hmem
          refine ih _ _ _ ?_ (by simp) hpartl c hmem
          exact elems_append hc (elems_join_singleton (by simp) hp')
        · rw [if_neg h3] at hmem
          exact ih _ _ _ hc hp' hpartl c hmem

/-- C4 counterexample: on the empty input, `split_text_into_chunks` returns
the original text as the single chunk, so the returned sequence contains an
empty string — contradicting the claim that all elements are non-empty for
every input. -/
theorem C4_counterexample : split_text_into_chunks "" = [""] := by
  simp +decide [split_text_into_chunks, chunkLoop, paragraphsOf, paragraphSplit, paraGo,
    pyStrip]

/-- C4 amended: for every input, `split_text_into_chunks` returns a
non-empty sequence (and, being a total function, never raises); all its
elements are non-empty provided the input text itself is non-empty — for
the empty input the result is the single empty chunk `[""]`. -/
theorem C4_split_nonempty (text : String) :
    split_text_into_chunks text ≠ []
    ∧ (text ≠ "" → ∀ c ∈ split_text_into_chunks text, c ≠ "") := by
  constructor
  · simp only [split_text_into_chunks]
    by_cases h : chunkLoop (paragraphsOf text) [] [] 0 = []
    · rw [if_pos h]; simp
    · rw [if_neg h]; exact h
  · intro ht c hc
    simp only [split_text_into_chunks] at hc
    by_cases h : chunkLoop (paragraphsOf text) [] [] 0 = []
    · rw [if_pos h] at hc
      rw [List.mem_singleton.mp hc]
      exact ht
    · rw [if_neg h] at hc
      exact chunkLoop_elems_ne_empty (paragraphsOf text) [] [] 0 (by simp) (by simp)
        (paragraphsOf_elems_ne_empty text) c hc

/-- Witness for C4 (amended) at a concrete non-empty input. -/
theorem C4_split_nonempty_witness :
    split_text_into_chunks "Hello there." ≠ []
    ∧ ∀ c ∈ split_text_into_chunks "Hello there.", c ≠ "" :=
  ⟨(C4_split_nonempty "Hello there.").1,
   (C4_split_nonempty "Hello there.").2 (by decide)⟩

/-! ### C5: sentence-boundary chunking of oversized paragraphs -/

theorem sentLoop_acc (rest : List String) :
    ∀ (chunks cur : List String) (cw : Nat),
    sentLoop rest chunks cur cw = chunks ++ sentLoop rest [] cur cw := by
  induction rest with
  | nil =>
    intro chunks cur cw
    simp [sentLoop]
  | cons s rest ih =>
    intro chunks cur cw
    simp only [sentLoop]
    by_cases h : cw + count_words s > MAX_WORDS ∧ cur ≠ []
    · rw [if_pos h, if_pos h, ih (chunks ++ [pyJoin " " cur]), ih ([] ++ [pyJoin " " cur])]
      simp [List.append_assoc]
    · rw [if_neg h, if_neg h]
      exact ih chunks (cur ++ [s]) (cw + count_words s)

theorem greedyBlocksLoop_acc (rest : List String) :
    ∀ (blocks : List (List String)) (cur : List String) (cw : Nat),
    greedyBlocksLoop rest blocks cur cw = blocks ++ greedyBlocksLoop rest [] cur cw := by
  induction rest with
  | nil =>
    intro blocks cur cw
    simp [greedyBlocksLoop]
  | cons s rest ih =>
    intro blocks cur cw
    simp only [greedyBlocksLoop]
    by_cases h : cw + count_words s > MAX_WORDS ∧ cur ≠ []
    · rw [if_pos h, if_pos h, ih (blocks ++ [cur]), ih ([] ++ [cur])]
      simp [List.append_assoc]
    · rw [if_neg h, if_neg h]
      exact ih blocks (cur ++ [s]) (cw + count_words s)

theorem sentLoop_eq_blocks (rest : List String) :
    ∀ (cur : List String) (cw : Nat),
    sentLoop rest [] cur cw = (greedyBlocksLoop rest [] cur cw).map (pyJoin " ") := by
  induction rest with
  | nil =>
    intro cur cw
    cases cur with
    | nil => simp [sentLoop, greedyBlocksLoop]
    | cons q qs => simp [sentLoop, greedyBlocksLoop]
  | cons s rest ih =>
    intro cur cw
    simp only [sentLoop, greedyBlocksLoop]
    by_cases h : cw + count_words s > MAX_WORDS ∧ cur ≠ []
    · rw [if_pos h, if_pos h, sentLoop_acc rest ([] ++ [pyJoin " " cur]),
        greedyBlocksLoop_acc rest ([] ++ [cur]), ih [s] (count_words s)]
      simp
    · rw [if_neg h, if_neg h]
      exact ih (cur ++ [s]) (cw + count_words s)

theorem greedyBlocksLoop_join (rest : List String) :
    ∀ (cur : List String) (cw : Nat),
    (greedyBlocksLoop rest [] cur cw).join = cur ++ rest := by
  induction rest with
  | nil =>
    intro cur cw
    cases cur with
    | nil => simp [greedyBlocksLoop]
    | cons q qs => simp [greedyBlocksLoop]
  | cons s rest ih =>
    intro cur cw
    simp only [greedyBlocksLoop]
    by_cases h : cw + count_words s > MAX_WORDS ∧ cur ≠ []
    · rw [if_pos h, greedyBlocksLoop_acc rest ([] ++ [cur])]
      simp [ih [s] (count_words s)]
    · rw [if_neg h, ih (cur ++ [s]) (cw + count_words s)]
      simp

theorem greedyBlocksLoop_chain (rest : List String) :
    ∀ (cur : List String) (cw : Nat), cur ≠ [] → cw = (cur.map count_words).sum →
    ∃ hd tl, greedyBlocksLoop rest [] cur cw = (cur ++ hd) :: tl
      ∧ (∀ b ∈ (cur ++ hd) :: tl, b ≠ [])
      ∧ List.Chain' (fun b b' =>
          (b.map count_words).sum + count_words (b'.headD "") > MAX_WORDS)
          ((cur ++ hd) :: tl) := by
  induction rest with
  | nil =>
    intro cur cw hcur _
    refine ⟨[], [], ?_, ?_, ?_⟩
    · simp [greedyBlocksLoop, hcur]
    · intro b hb
      simp at hb
      rw [hb]
      simpa using hcur
    · simp
  | cons s rest ih =>
    intro cur cw hcur hcw
    simp only [greedyBlocksLoop]
    by_cases h : cw + count_words s > MAX_WORDS ∧ cur ≠ []
    · rw [if_pos h]
      obtain ⟨hd', tl', heq, hne, hchain⟩ := ih [s] (count_words s) (by simp) (by simp)
      rw [greedyBlocksLoop_acc rest ([] ++ [cur]), heq]
      refine ⟨[], ([s] ++ hd') :: tl', by simp, ?_, ?_⟩
      · intro b hb
        rcases List.mem_cons.mp hb with hb1 | hb2
        · rw [hb1]; simpa using hcur
        · exact hne b hb2
      · rw [List.chain'_cons]
        constructor
        · simp only [List.singleton_append, List.headD_cons, List.append_nil]
          rw [← hcw]
          exact h.1
        · exact hchain
    · rw [if_neg h]
      obtain ⟨hd', tl', heq, hne, hchain⟩ := ih (cur ++ [s])
        (cw + count_words s) (by simp) (by simp [hcw])
      rw [heq]
      refine ⟨[s] ++ hd', tl', by simp, ?_, ?_⟩
      · intro b hb
        rcases List.mem_cons.mp hb with hb1 | hb2
        · rw [hb1]
          have := hne (cur ++ [s] ++ hd') (List.mem_cons_self _ _)
          simpa [List.append_assoc] using this
        · exact hne b (List.mem_cons_of_mem _ hb2)
      · have : cur ++ ([s] ++ hd') = cur ++ [s] ++ hd' := by simp [List.append_assoc]
        rw [this]
        exact hchain

/-- C5: when a paragraph is split by `split_paragraph_into_chunks`, its
chunks are the space-joins of a partition of the paragraph's sentence list
(sentences as produced by the `(?<=[.!?])\s+` split, i.e. text ending at
`.`, `!` or `?` followed by whitespace) into consecutive non-empty blocks —
so no chunk boundary falls strictly inside a sentence and no sentence is
divided across two chunks — and the packing is greedy: each block together
with the first sentence of the next block exceeds the 500-word bound. -/
theorem C5_sentence_boundaries (paragraph : String) :
    ∃ blocks : List (List String),
      blocks.join = splitSentences (pyStrip paragraph)
      ∧ (∀ b ∈ blocks, b ≠ [])
      ∧ List.Chain' (fun b b' =>
          (b.map count_words).sum + count_words (b'.headD "") > MAX_WORDS) blocks
      ∧ split_paragraph_into_chunks paragraph
          = (blocks.map (pyJoin " ")).filter (fun c => pyStrip c ≠ "") := by
  cases hs : splitSentences (pyStrip paragraph) with
  | nil =>
    refine ⟨[], by simp, by simp, by simp, ?_⟩
    simp only [split_paragraph_into_chunks, hs]
    simp [sentLoop]
  | cons s rest =>
    have hstep1 : sentLoop (s :: rest) [] [] 0 = sentLoop rest [] [s] (count_words s) := by
      simp only [sentLoop]
      rw [if_neg (by simp)]
      simp
    have hstep2 : greedyBlocksLoop (s :: rest) [] [] 0
        = greedyBlocksLoop rest [] [s] (count_words s) := by
      simp only [greedyBlocksLoop]
      rw [if_neg (by simp)]
      simp
    obtain ⟨hd, tl, heq, hne, hchain⟩ :=
      greedyBlocksLoop_chain rest [s] (count_words s) (by simp) (by simp)
    refine ⟨greedyBlocksLoop rest [] [s] (count_words s), ?_, ?_, ?_, ?_⟩
    · rw [greedyBlocksLoop_join rest [s] (count_words s)]
      rfl
    · rw [heq]; exact hne
    · rw [heq]; exact hchain
    · simp only [split_paragraph_into_chunks, hs]
      rw [hstep1, sentLoop_eq_blocks rest [s] (count_words s)]

end MLApi
